import Mathlib

/-!
Shallow embedding of the segmentation and finalization engine of
`src/recorder.py` (class `VideoRecorder`, with the pieces of `AudioRecorder`
and the ffmpeg muxer that it drives).

Modelling conventions:
* Timestamps are natural numbers (seconds since an arbitrary epoch).  The
  Python code formats `datetime` values with `strftime` into strings that are
  injective down to the second; the embedding keeps the underlying instant.
* Filenames are modelled structurally by `FName`: each constructor is one of
  the filename patterns the code generates (`temp_vdo_<date>_<time>.mp4`,
  `Audios/temp_seg_audio.wav`, `Audios/audio_seg_<s>_to_<e>.wav`,
  `merged_<sid>_<cn>_<s>_to_<e>_<cat>.mp4` produced by the muxer, and the
  delivery name `<pfx>_<sid>_<idx>_<s>_to_<e>_<cat>.mp4` produced at stop).
  Distinct constructors render to distinct strings, so constructor
  disjointness mirrors distinctness of the concrete names.
* The filesystem is a list of the files currently present (a file is listed
  iff it exists with non-zero size); `os.remove` is `List.erase`, a rename
  erases the source and appends the target.
* Fallible operations take a boolean describing the outcome of the external
  effect (ffmpeg exit status, encoder start success), exactly where the
  Python code branches on an exception.
-/

/-- Filename patterns generated by `recorder.py`, one constructor per
pattern.  `tempVdo stamp` is `Videos/temp_vdo_<date>_<time>.mp4` with
`stamp` the creation instant (`generate_video_filename`, line 181);
`tempSegAudio` is `Audios/temp_seg_audio.wav`; `audioSeg s e` is the
`Audios/audio_seg_<s>_to_<e>.wav` name that `stop_segmented_recording`
renames the temp audio to and returns; `mergedTmp` is the muxer output
`Videos/merged_<sid>_<cn>_<s>_to_<e>_<cat>.mp4` (line 474); `delivery` is
the final `Videos/<pfx>_<sid>_<idx>_<s>_to_<e>_<cat>.mp4` produced by
`stop_recording` (line 600). -/
inductive FName where
  | tempVdo (stamp : ℕ)
  | tempSegAudio
  | audioSeg (startT endT : ℕ)
  | mergedTmp (sid cn startT endT : ℕ) (cat : String)
  | delivery (pfx : String) (sid idx startT endT : ℕ) (cat : String)
deriving DecidableEq

/-- One entry of the segment ledger: the Python dict
`{"file": .., "start": .., "end": .., "start_str": .., "end_str": ..}`.
The `start`/`end` and `start_str`/`end_str` fields are both string
renderings of the same two instants, kept here once as numbers. -/
structure SegRecord where
  file : FName
  startT : ℕ
  endT : ℕ
deriving DecidableEq

/-- The mutable attributes of `VideoRecorder` that the segmentation engine
reads and writes (`__init__`, lines 161-179).  `segmentation_thread` is
`True` when a worker thread object has been created for this session
(`self.segmentation_thread is not None`). -/
structure RecorderState where
  recording : Bool
  with_audio : Bool
  segments : List SegRecord
  session_counter : ℕ
  chunk_num : ℕ
  current_video_file : Option FName
  current_segment_start : ℕ
  segmentation_thread : Bool
deriving DecidableEq

/-- The state `VideoRecorder.__init__` establishes: not recording, empty
ledger, `session_counter = 1`, `chunk_num = 1`, no current file, no worker. -/
def initState : RecorderState :=
  { recording := false
    with_audio := false
    segments := []
    session_counter := 1
    chunk_num := 1
    current_video_file := none
    current_segment_start := 0
    segmentation_thread := false }

/-- Model of `VideoRecorder.start_recording` (lines 187-230).  Returns the
new state together with `true` iff a worker thread (segmentation thread in
audio+video mode, monitor thread in video-only mode) was spawned.  If a
session is already active the call returns at once (line 188-190).
Otherwise the flag is set, the ledger cleared, and the session start
instant recorded; in audio+video mode the segmentation worker is spawned,
in video-only mode the encoder is started on a fresh temp file —
`encoderStartOk = false` is the branch where `picam2.start_recording`
raises (lines 220-225): the flag is reset and the call returns with no
monitor thread. -/
def start_recording (s : RecorderState) (withAudio : Bool) (now : ℕ)
    (encoderStartOk : Bool) : RecorderState × Bool :=
  if s.recording then (s, false)
  else
    let s1 := { s with recording := true, with_audio := withAudio,
                       segments := [], current_segment_start := now }
    if withAudio then ({ s1 with segmentation_thread := true }, true)
    else if encoderStartOk then
      ({ s1 with current_video_file := some (.tempVdo now) }, true)
    else
      ({ s1 with current_video_file := some (.tempVdo now),
                 recording := false }, false)

/-- Model of `VideoRecorder.merge_video_audio` (lines 466-511).  `toolOk`
is the exit status of the external ffmpeg invocation (`subprocess.run`
with `check=True`): on success the merged file exists, both inputs are
removed (`os.remove`, lines 506-507) and the merged path is returned; on
`CalledProcessError` nothing is removed and `None` is returned
(lines 509-511). -/
def merge_video_audio (fs : List FName) (videoFile audioFile : FName)
    (sid cn segStart segEnd : ℕ) (cat : String) (toolOk : Bool) :
    Option FName × List FName :=
  let mergedFile := FName.mergedTmp sid cn segStart segEnd cat
  if toolOk then
    (some mergedFile, ((fs.erase videoFile).erase audioFile) ++ [mergedFile])
  else
    (none, fs)

/-- Model of the rename loop of `stop_recording` (lines 596-618):
`for idx, seg in enumerate(self.segments, start=1)`.  Each segment whose
file still exists is renamed to the delivery name
`<pfx>_<sid>_<idx>_<start>_to_<end>_<cat>.mp4`; if the source file is
missing (or the rename raises) the original path is kept.  Returns the
final segment list and the resulting filesystem. -/
def finalizeList (pfx : String) (sid : ℕ) (cat : String) :
    List FName → ℕ → List SegRecord → List SegRecord × List FName
  | fs, _, [] => ([], fs)
  | fs, idx, sg :: rest =>
    let finalName := FName.delivery pfx sid idx sg.startT sg.endT cat
    if sg.file ∈ fs then
      let r := finalizeList pfx sid cat (fs.erase sg.file ++ [finalName]) (idx + 1) rest
      (⟨finalName, sg.startT, sg.endT⟩ :: r.1, r.2)
    else
      let r := finalizeList pfx sid cat fs (idx + 1) rest
      (⟨sg.file, sg.startT, sg.endT⟩ :: r.1, r.2)

/-- Model of `VideoRecorder.stop_recording` (lines 513-623) as seen by the
caller after the worker (if any) has been joined: `now` is the instant the
close-out happens, `fs` the filesystem at that point.  In audio+video mode
the ledger is whatever the worker left in `self.segments`; in video-only
mode the monitor is stopped and, if the current video file exists with
content, a closing segment from `current_segment_start` to `now` is
appended (lines 548-580).  Every ledger entry is then renamed with prefix
`"merged"` when `with_audio` else `"vdo"` (line 597), `session_counter` is
incremented and `chunk_num` reset to 1 (lines 621-622).  Returns the final
segment list, the new state and the new filesystem. -/
def stop_recording (s : RecorderState) (fs : List FName) (now : ℕ)
    (cat : String) : List SegRecord × RecorderState × List FName :=
  let segs1 :=
    if s.with_audio && s.segmentation_thread then s.segments
    else
      match s.current_video_file with
      | some f =>
        if f ∈ fs then s.segments ++ [⟨f, s.current_segment_start, now⟩]
        else s.segments
      | none => s.segments
  let pfx := if s.with_audio then "merged" else "vdo"
  let r := finalizeList pfx s.session_counter cat fs 1 segs1
  (r.1,
   { s with recording := false, segments := segs1,
            session_counter := s.session_counter + 1, chunk_num := 1 },
   r.2)

/-- Per-chunk behaviour of the environment during one iteration of the
audio+video segmentation loop `_record_with_segmentation`
(lines 281-395).  `encoderRaises` : `picam2.start_recording` raises
(line 287, not inside a try, so it propagates to the outer handler).
`audioRaises` : `start_segmented_recording` raises (line 289, likewise
unguarded).  `stamp` : creation instant of the chunk's temp video name.
`fileUsable` : after the 2 s grace sleep, the bounded readiness poll and
the directory-scan fallback, a non-empty video file for this chunk was
found.  `mergeOk` : the ffmpeg merge succeeded.  `dur` : how long the
chunk lasted (from its start to the `seg_end = datetime.now()` taken at
line 316). -/
structure ChunkSpec where
  encoderRaises : Bool
  audioRaises : Bool
  stamp : ℕ
  fileUsable : Bool
  mergeOk : Bool
  dur : ℕ
deriving DecidableEq

/-- How the worker loop terminated: `normal` when the `while self.recording`
condition turned false, `aborted` when an exception escaped the loop body
into the outer `except` of `_record_with_segmentation` (lines 459-462),
which logs it and ends the worker. -/
inductive ExitKind where
  | normal
  | aborted
deriving DecidableEq

/-- The loop-local state of `_record_with_segmentation`: the ledger built
so far, `seg_start` (line 275, updated at line 395), `self.chunk_num`
(incremented at line 393) and the session id used in merged filenames. -/
structure LoopState where
  segs : List SegRecord
  segStart : ℕ
  chunkNum : ℕ
  sid : ℕ
deriving DecidableEq

/-- Functional model of the audio+video segmentation loop
(`_record_with_segmentation`, lines 281-395).  The input list holds one
`ChunkSpec` per iteration the loop runs before the stop flag is observed
(an empty tail means the flag was seen at the top of the loop).  Each
iteration: start encoder and audio (either raising aborts the worker with
the state kept as is), record from `segStart` for `dur`, then either
append a merged segment (`mergedTmp` name, empty category as in the call
at line 368 where `media_category` is `None`), append a raw-video segment
keeping the temp path (merge failed, lines 379-389), or skip the chunk
entirely when no usable file was found (line 390-391, the chunk is lost);
finally `chunk_num` advances and the next chunk starts exactly when this
one ended (lines 393-395, also for lost chunks). -/
def runLoop : LoopState → List ChunkSpec → LoopState × ExitKind
  | st, [] => (st, .normal)
  | st, c :: rest =>
    if c.encoderRaises || c.audioRaises then (st, .aborted)
    else
      let segEnd := st.segStart + c.dur
      let st' :=
        if c.fileUsable then
          let f := if c.mergeOk
            then FName.mergedTmp st.sid st.chunkNum st.segStart segEnd ""
            else FName.tempVdo c.stamp
          { st with segs := st.segs ++ [⟨f, st.segStart, segEnd⟩],
                    segStart := segEnd, chunkNum := st.chunkNum + 1 }
        else
          { st with segStart := segEnd, chunkNum := st.chunkNum + 1 }
      runLoop st' rest

/-- Functional model of `monitor_video_size` (lines 232-263) in video-only
mode.  Each element `(dur, stamp)` is one tick at which the size check
found the current file over the threshold: the running chunk (started at
`current_segment_start`, lasting `dur`) is appended to the ledger, the
next chunk's start is set to this chunk's end (line 256) and a fresh temp
file is started (`stamp` its creation instant, line 257).  Ticks at which
the file is missing or under the threshold change nothing and are not
represented. -/
def runMonitor : RecorderState → List (ℕ × ℕ) → RecorderState
  | s, [] => s
  | s, (dur, stamp) :: rest =>
    match s.current_video_file with
    | none => s
    | some f =>
      let tEnd := s.current_segment_start + dur
      runMonitor
        { s with segments := s.segments ++ [⟨f, s.current_segment_start, tEnd⟩],
                 current_segment_start := tEnd,
                 current_video_file := some (.tempVdo stamp) } rest

/-- Character-list test that `pat` occurs as a prefix of `s` (helper for
the substring and suffix checks of the directory-scan fallback). -/
def isPrefixChars : List Char → List Char → Bool
  | [], _ => true
  | _ :: _, [] => false
  | a :: xs, b :: ys => a == b && isPrefixChars xs ys

/-- Character-list substring occurrence test, the meaning of Python's
`pat in s`. -/
def containsChars (pat : List Char) : List Char → Bool
  | [] => isPrefixChars pat []
  | s@(_ :: rest) => isPrefixChars pat s || containsChars pat rest

/-- Character-list suffix test, the meaning of Python's `s.endswith(pat)`. -/
def endsWithChars (pat s : List Char) : Bool :=
  isPrefixChars pat.reverse s.reverse

/-- The filter of the directory-scan fallback (line 354):
`"temp" in f.lower() and f.endswith(".mp4")`. -/
def isTempCandidate (name : String) : Bool :=
  containsChars "temp".toList (name.toList.map Char.toLower) &&
    endsWithChars ".mp4".toList name.toList

/-- Ordering used at line 359: `sort(key=lambda x: x[1], reverse=True)`,
i.e. larger modification time first. -/
def mtimeGe (a b : String × ℕ) : Prop := b.2 ≤ a.2

instance : DecidableRel mtimeGe := fun a b => Nat.decLe b.2 a.2

instance : IsTotal (String × ℕ) mtimeGe := ⟨fun a b => Nat.le_total b.2 a.2⟩

instance : IsTrans (String × ℕ) mtimeGe :=
  ⟨fun _ _ _ h1 h2 => Nat.le_trans h2 h1⟩

/-- Model of the directory-scan recovery (lines 348-364): from the listing
of the `Videos` directory (each entry a name with its modification time),
keep the temp candidates, sort by modification time descending (a stable
sort, as Python's `list.sort`), and take the first entry's name. -/
def recoverLatestTemp (files : List (String × ℕ)) : Option String :=
  let tempFiles := files.filter fun p => isTempCandidate p.1
  let sorted := tempFiles.insertionSort mtimeGe
  sorted.head?.map Prod.fst

/-- Discrete-time model of the stop handshake, in tenths of a second.
`graceDs` is the `time.sleep(2.0)` at line 314, `readinessMaxDs` the
bounded readiness poll (`max_wait = 15` at line 333, polled in 0.3 s
steps), `joinTimeoutDs` the `self.segmentation_thread.join(timeout=10)`
at line 525, `monitorIntervalDs` the 2 s poll interval at which the
worker observes the stop flag. -/
def graceDs : ℕ := 20

/-- Bound of the readiness poll of lines 333-344 (15 s), in tenths. -/
def readinessMaxDs : ℕ := 150

/-- The `join(timeout=10)` bound of line 525, in tenths. -/
def joinTimeoutDs : ℕ := 100

/-- The 2 s poll interval (line 179) bounding how late the worker observes
the stop flag, in tenths. -/
def monitorIntervalDs : ℕ := 20

/-- Timing of one stop request relative to the in-flight chunk, measured
from the instant the caller sets `self.recording = False` (line 520).
`obsDelayDs` : delay until the worker's size-poll observes the flag
(at most one poll interval).  `readinessDs` : time the readiness poll of
lines 333-344 actually spends (at most its bound).  `mergeDs` : duration
of the synchronous ffmpeg merge.  `finalized` : the worker found a usable
file (directly or through recovery) and appended a segment — `false`
means the chunk was skipped as lost (lines 390-391). -/
structure StopScenario where
  obsDelayDs : ℕ
  readinessDs : ℕ
  mergeDs : ℕ
  finalized : Bool
deriving DecidableEq

/-- Constraints the code imposes on a stop scenario: the worker sees the
flag within one poll interval and the readiness poll respects its bound. -/
def ValidScenario (sc : StopScenario) : Prop :=
  sc.obsDelayDs ≤ monitorIntervalDs ∧ sc.readinessDs ≤ readinessMaxDs

/-- Instant (after the stop request) at which the worker appends the
in-flight chunk to `self.segments` and exits: flag observation, then the
2 s grace sleep, then the readiness poll, then the merge. -/
def workerAppendDs (sc : StopScenario) : ℕ :=
  sc.obsDelayDs + graceDs + sc.readinessDs + sc.mergeDs

/-- Content of `self.segments` (restricted to the in-flight chunk) as a
function of time: the chunk's record is present from the instant the
worker appended it, and only if the worker finalized the chunk at all. -/
def workerLedgerAt (sc : StopScenario) (chunk : SegRecord) (t : ℕ) :
    List SegRecord :=
  if sc.finalized = true ∧ workerAppendDs sc ≤ t then [chunk] else []

/-- Instant at which `join(timeout=10)` returns to the caller: when the
worker exits, or at the timeout, whichever comes first. -/
def joinReturnDs (sc : StopScenario) : ℕ :=
  min (workerAppendDs sc) joinTimeoutDs

/-- The in-flight chunk's entries of the ledger as `stop_recording` reads
them right after the join returns (line 526). -/
def stopReturnedLedger (sc : StopScenario) (chunk : SegRecord) :
    List SegRecord :=
  workerLedgerAt sc chunk (joinReturnDs sc)

/-- Projection of a ledger to its (start, end) timestamp pairs. -/
def segPairs (l : List SegRecord) : List (ℕ × ℕ) :=
  l.map fun sg => (sg.startT, sg.endT)

/-- A ledger is contiguous when each entry's end instant is the next
entry's start instant (`end[i] == start[i+1]`). -/
def Contiguous (l : List SegRecord) : Prop :=
  List.Chain' (fun a b => a.2 = b.1) (segPairs l)

/-- True of every filename pattern except the delivery names produced by
the rename loop of `stop_recording`. -/
def notDelivery : FName → Bool
  | .delivery .. => false
  | _ => true

/-- Recorder state at the moment `stop_recording` runs in Scenario C: an
audio+video session whose single chunk failed to merge, so the worker left
one raw-video ledger entry holding the chunk's temp path (`temp_vdo`,
created at instant 3, spanning instants 0 to 5), with `session_counter`
still 1 and `chunk_num` advanced to 2. -/
def scenarioCState : RecorderState :=
  { recording := true
    with_audio := true
    segments := [⟨.tempVdo 3, 0, 5⟩]
    session_counter := 1
    chunk_num := 2
    current_video_file := none
    current_segment_start := 0
    segmentation_thread := true }

/-- Recorder state of a live audio+video session whose worker produced a
single raw-video ledger entry (the chunk's temp file, created at instant
3, spanning instants 0 to 5). -/
def oneChunkAVState : RecorderState :=
  { recording := true
    with_audio := true
    segments := [⟨.tempVdo 3, 0, 5⟩]
    session_counter := 1
    chunk_num := 2
    current_video_file := none
    current_segment_start := 0
    segmentation_thread := true }

/-- A chunk iteration the loop completes without an exception and with a
usable video file (no loss). -/
def GoodChunk (c : ChunkSpec) : Prop :=
  c.encoderRaises = false ∧ c.audioRaises = false ∧ c.fileUsable = true

/-- C7: calling `start_recording` while a session is active is a no-op —
the state is unchanged and no worker thread is spawned (lines 188-190). -/
theorem start_recording_noop_when_active (s : RecorderState)
    (withAudio : Bool) (now : ℕ) (encoderStartOk : Bool)
    (h : s.recording = true) :
    start_recording s withAudio now encoderStartOk = (s, false) := by
  simp [start_recording, h]

/-- Witness for C7 at a concrete active state. -/
theorem start_recording_noop_when_active_witness :
    ({ initState with recording := true } : RecorderState).recording = true ∧
    start_recording { initState with recording := true } true 5 true =
      ({ initState with recording := true }, false) :=
  ⟨rfl, start_recording_noop_when_active _ true 5 true rfl⟩

/-- C8: `stop_recording` with no prior `start_recording` (the state left
by `__init__`) returns an empty segment list, whatever the filesystem,
instant and category; the model is a total function, mirroring that every
exception on this path is caught (lines 535-541, 604-613). -/
theorem stop_without_start_returns_empty (fs : List FName) (now : ℕ)
    (cat : String) :
    (stop_recording initState fs now cat).1 = [] := by
  simp [stop_recording, initState, finalizeList]

/-- C3: when the external merge tool exits successfully, both input files
are removed from the filesystem, the merged file exists, and the merged
path is returned (lines 496-508). -/
theorem merge_success_deletes_inputs_returns_merged
    (fs : List FName) (vstamp aS aE sid cn s e : ℕ) (cat : String)
    (hnd : fs.Nodup)
    (hv : FName.tempVdo vstamp ∈ fs) (ha : FName.audioSeg aS aE ∈ fs) :
    (merge_video_audio fs (.tempVdo vstamp) (.audioSeg aS aE)
        sid cn s e cat true).1 = some (FName.mergedTmp sid cn s e cat) ∧
    FName.tempVdo vstamp ∉
      (merge_video_audio fs (.tempVdo vstamp) (.audioSeg aS aE)
        sid cn s e cat true).2 ∧
    FName.audioSeg aS aE ∉
      (merge_video_audio fs (.tempVdo vstamp) (.audioSeg aS aE)
        sid cn s e cat true).2 ∧
    FName.mergedTmp sid cn s e cat ∈
      (merge_video_audio fs (.tempVdo vstamp) (.audioSeg aS aE)
        sid cn s e cat true).2 := by
  have hv' : FName.tempVdo vstamp ∉
      (fs.erase (FName.tempVdo vstamp)).erase (FName.audioSeg aS aE) :=
    fun hmem => hnd.not_mem_erase (List.mem_of_mem_erase hmem)
  have ha' : FName.audioSeg aS aE ∉
      (fs.erase (FName.tempVdo vstamp)).erase (FName.audioSeg aS aE) :=
    (hnd.erase _).not_mem_erase
  refine ⟨rfl, ?_, ?_, ?_⟩
  · show FName.tempVdo vstamp ∉
      ((fs.erase (FName.tempVdo vstamp)).erase (FName.audioSeg aS aE)) ++
        [FName.mergedTmp sid cn s e cat]
    simp [List.mem_append, hv']
  · show FName.audioSeg aS aE ∉
      ((fs.erase (FName.tempVdo vstamp)).erase (FName.audioSeg aS aE)) ++
        [FName.mergedTmp sid cn s e cat]
    simp [List.mem_append, ha']
  · simp [merge_video_audio]

/-- Witness for C3: a filesystem holding exactly the two temp inputs. -/
theorem merge_success_deletes_inputs_returns_merged_witness :
    ([FName.tempVdo 3, FName.audioSeg 0 5] : List FName).Nodup ∧
    FName.tempVdo 3 ∈ ([FName.tempVdo 3, FName.audioSeg 0 5] : List FName) ∧
    FName.audioSeg 0 5 ∈ ([FName.tempVdo 3, FName.audioSeg 0 5] : List FName) ∧
    ((merge_video_audio [FName.tempVdo 3, FName.audioSeg 0 5] (.tempVdo 3)
        (.audioSeg 0 5) 1 1 0 5 "cat" true).1 =
      some (FName.mergedTmp 1 1 0 5 "cat") ∧
    FName.tempVdo 3 ∉
      (merge_video_audio [FName.tempVdo 3, FName.audioSeg 0 5] (.tempVdo 3)
        (.audioSeg 0 5) 1 1 0 5 "cat" true).2 ∧
    FName.audioSeg 0 5 ∉
      (merge_video_audio [FName.tempVdo 3, FName.audioSeg 0 5] (.tempVdo 3)
        (.audioSeg 0 5) 1 1 0 5 "cat" true).2 ∧
    FName.mergedTmp 1 1 0 5 "cat" ∈
      (merge_video_audio [FName.tempVdo 3, FName.audioSeg 0 5] (.tempVdo 3)
        (.audioSeg 0 5) 1 1 0 5 "cat" true).2) :=
  ⟨by decide, by decide, by decide,
   merge_success_deletes_inputs_returns_merged _ 3 0 5 1 1 0 5 "cat"
     (by decide) (by decide) (by decide)⟩

/-- C4: when the external merge tool exits non-zero, the filesystem is
untouched (both inputs preserved), `None` is returned (lines 509-511),
and the segmentation loop demotes the chunk by appending a raw-video
segment holding the original temp video path (lines 379-389). -/
theorem merge_failure_preserves_inputs_and_demotes
    (fs : List FName) (videoFile audioFile : FName) (sid cn s e : ℕ)
    (cat : String) (st : LoopState) (c : ChunkSpec)
    (h1 : c.encoderRaises = false) (h2 : c.audioRaises = false)
    (h3 : c.fileUsable = true) (h4 : c.mergeOk = false) :
    merge_video_audio fs videoFile audioFile sid cn s e cat false =
      (none, fs) ∧
    (runLoop st [c]).1.segs =
      st.segs ++ [⟨FName.tempVdo c.stamp, st.segStart, st.segStart + c.dur⟩] := by
  constructor
  · simp [merge_video_audio]
  · simp [runLoop, h1, h2, h3, h4]

/-- Witness for C4 with one concrete merge-failed chunk. -/
theorem merge_failure_preserves_inputs_and_demotes_witness :
    (⟨false, false, 3, true, false, 5⟩ : ChunkSpec).encoderRaises = false ∧
    (⟨false, false, 3, true, false, 5⟩ : ChunkSpec).audioRaises = false ∧
    (⟨false, false, 3, true, false, 5⟩ : ChunkSpec).fileUsable = true ∧
    (⟨false, false, 3, true, false, 5⟩ : ChunkSpec).mergeOk = false ∧
    (merge_video_audio [FName.tempVdo 3, FName.audioSeg 0 5] (.tempVdo 3)
        (.audioSeg 0 5) 1 1 0 5 "cat" false =
      (none, [FName.tempVdo 3, FName.audioSeg 0 5]) ∧
    (runLoop ⟨[], 0, 1, 1⟩ [⟨false, false, 3, true, false, 5⟩]).1.segs =
      [] ++ [⟨FName.tempVdo 3, 0, 0 + 5⟩]) :=
  ⟨rfl, rfl, rfl, rfl,
   merge_failure_preserves_inputs_and_demotes _ _ _ 1 1 0 5 "cat" _ _
     rfl rfl rfl rfl⟩

/-- C5 counterexample: in Scenario C (audio+video session, one chunk,
merge failed) the segmentation loop does leave one raw-video ledger entry,
but `stop_recording` renames it with the session-level prefix `"merged"`
(line 597: the prefix depends only on `self.with_audio`), so the single
returned segment's path is a `merged_`-prefixed delivery name and is not a
`vdo_`-style name for any session id, index, timestamps or category. -/
theorem scenarioC_returns_merged_prefixed_name :
    (runLoop ⟨[], 0, 1, 1⟩ [⟨false, false, 3, true, false, 5⟩]).1.segs =
      [⟨.tempVdo 3, 0, 5⟩] ∧
    (stop_recording scenarioCState [.tempVdo 3, .audioSeg 0 5] 5 "cat").1 =
      [⟨.delivery "merged" 1 1 0 5 "cat", 0, 5⟩] ∧
    ∀ sid idx s e c,
      FName.delivery "merged" 1 1 0 5 "cat" ≠ FName.delivery "vdo" sid idx s e c := by
  refine ⟨by decide, by decide, ?_⟩
  intro sid idx s e c h
  simp [FName.delivery.injEq] at h

/-- C5 amended: audio+video session, one chunk recorded, merge tool fails:
`stop_recording` returns exactly one segment, renamed to the `merged_`
prefixed delivery name (the prefix encodes that audio was requested for
the session, not the merge outcome); the audio input file is not deleted,
and the raw temp video is renamed to the delivery name rather than
deleted, so its content survives under the new name. -/
theorem scenarioC_amended_one_merged_named_segment :
    (stop_recording scenarioCState [.tempVdo 3, .audioSeg 0 5] 5 "cat").1 =
      [⟨.delivery "merged" 1 1 0 5 "cat", 0, 5⟩] ∧
    (stop_recording scenarioCState [.tempVdo 3, .audioSeg 0 5] 5 "cat").2.2 =
      [.audioSeg 0 5, .delivery "merged" 1 1 0 5 "cat"] := by
  constructor <;> decide

/-- C1 counterexample: a valid stop timing in which the worker finalizes
the in-flight chunk (it is not marked lost, and from the worker's append
instant onward the ledger holds its record), yet the chunk takes the full
readiness poll (15 s) plus a 1 s merge after the 2 s grace sleep, so the
worker appends at 17 s while `join(timeout=10)` has already returned at
10 s — the ledger `stop_recording` reads and returns misses the chunk. -/
theorem stop_join_timeout_counterexample :
    ValidScenario ⟨0, 150, 10, true⟩ ∧
    (⟨0, 150, 10, true⟩ : StopScenario).finalized = true ∧
    workerLedgerAt ⟨0, 150, 10, true⟩ ⟨.tempVdo 3, 0, 5⟩
      (workerAppendDs ⟨0, 150, 10, true⟩) = [⟨.tempVdo 3, 0, 5⟩] ∧
    stopReturnedLedger ⟨0, 150, 10, true⟩ ⟨.tempVdo 3, 0, 5⟩ = [] := by
  refine ⟨⟨by decide, by decide⟩, rfl, ?_, ?_⟩
  · simp [workerLedgerAt]
  · simp [stopReturnedLedger, workerLedgerAt, joinReturnDs, workerAppendDs,
      graceDs, joinTimeoutDs]

/-- C1 amended: `stop_recording` waits for the worker only up to the 10 s
join timeout; every chunk the worker finalizes within that bound (flag
observation + 2 s grace + readiness poll + merge all completed before the
join returns) appears in the returned ledger — chunks whose finalization
exceeds the bound may be missing even though the worker accounts for them
later. -/
theorem stop_join_within_timeout_returns_chunk (sc : StopScenario)
    (chunk : SegRecord) (hfin : sc.finalized = true)
    (hfast : workerAppendDs sc ≤ joinTimeoutDs) :
    stopReturnedLedger sc chunk = [chunk] := by
  unfold stopReturnedLedger joinReturnDs workerLedgerAt
  rw [min_eq_left hfast]
  simp [hfin]

/-- Witness for the amended C1 at a timing inside the join bound. -/
theorem stop_join_within_timeout_returns_chunk_witness :
    (⟨5, 0, 0, true⟩ : StopScenario).finalized = true ∧
    workerAppendDs ⟨5, 0, 0, true⟩ ≤ joinTimeoutDs ∧
    stopReturnedLedger ⟨5, 0, 0, true⟩ ⟨.tempVdo 1, 0, 2⟩ =
      [⟨.tempVdo 1, 0, 2⟩] :=
  ⟨rfl, by decide,
   stop_join_within_timeout_returns_chunk _ _ rfl (by decide)⟩

/-- C9 counterexample: a chunk whose encoder start succeeds but whose
audio start raises (line 289 is not inside any try) aborts the worker loop
through the outer handler — the session aborts on a failure that is not an
encoder start failure.  Moreover, in audio+video mode the caller of
`start_recording` gets the same result whether or not the encoder will
later reject the start, since the encoder is only started on the worker:
the failure is not reported to the caller of start. -/
theorem audio_failure_aborts_loop :
    (runLoop ⟨[], 0, 1, 1⟩ [⟨false, true, 0, true, true, 1⟩]).2 =
      ExitKind.aborted ∧
    (⟨false, true, 0, true, true, 1⟩ : ChunkSpec).encoderRaises = false ∧
    start_recording initState true 0 false = start_recording initState true 0 true := by
  refine ⟨by decide, rfl, by decide⟩

/-- C9 amended: an encoder start failure does abort the session — in the
audio+video worker it (like any other exception escaping the loop body,
e.g. an audio start failure) terminates the loop through the outer
handler, which only logs it; in video-only mode `start_recording` clears
the recording flag and returns normally, again only logging.  No failure
value is raised to the caller in either mode, and encoder start failure is
not the only failure that aborts a session. -/
theorem loop_aborts_on_start_failures (st : LoopState) (c : ChunkSpec)
    (rest : List ChunkSpec) (s : RecorderState) (now : ℕ) :
    (c.encoderRaises = true ∨ c.audioRaises = true →
      runLoop st (c :: rest) = (st, ExitKind.aborted)) ∧
    (s.recording = false →
      (start_recording s false now false).1.recording = false) := by
  constructor
  · rintro (h | h) <;> simp [runLoop, h]
  · intro h
    simp [start_recording, h]

/-- Witness for the amended C9: an encoder start failure on the first
chunk aborts the worker, and a video-only start whose encoder start raises
leaves the recorder not recording. -/
theorem loop_aborts_on_start_failures_witness :
    ((⟨true, false, 0, true, true, 1⟩ : ChunkSpec).encoderRaises = true ∨
      (⟨true, false, 0, true, true, 1⟩ : ChunkSpec).audioRaises = true) ∧
    initState.recording = false ∧
    (runLoop ⟨[], 0, 1, 1⟩ [⟨true, false, 0, true, true, 1⟩] =
      (⟨[], 0, 1, 1⟩, ExitKind.aborted) ∧
    (start_recording initState false 7 false).1.recording = false) :=
  ⟨Or.inl rfl, rfl,
   (loop_aborts_on_start_failures ⟨[], 0, 1, 1⟩ _ [] initState 7).1 (Or.inl rfl),
   (loop_aborts_on_start_failures ⟨[], 0, 1, 1⟩ ⟨true, false, 0, true, true, 1⟩ [] initState 7).2 rfl⟩

/-- C6: whenever the directory-scan recovery (lines 348-364) returns a
candidate, that candidate is one of the listed files, matches the temp
filter (`"temp" in f.lower() and f.endswith(".mp4")`), and its
modification time is maximal among all matching files in the listing — in
particular a newer matching temp file is never passed over. -/
theorem recoverLatestTemp_selects_latest (files : List (String × ℕ))
    (f : String) (h : recoverLatestTemp files = some f) :
    ∃ m : ℕ, (f, m) ∈ files ∧ isTempCandidate f = true ∧
      ∀ g ∈ files, isTempCandidate g.1 = true → g.2 ≤ m := by
  simp only [recoverLatestTemp, Option.map_eq_some'] at h
  obtain ⟨p, hp, hpf⟩ := h
  have hsorted : List.Sorted mtimeGe
      ((files.filter fun q => isTempCandidate q.1).insertionSort mtimeGe) :=
    List.sorted_insertionSort mtimeGe _
  have hperm : ((files.filter fun q => isTempCandidate q.1).insertionSort
      mtimeGe).Perm (files.filter fun q => isTempCandidate q.1) :=
    List.perm_insertionSort mtimeGe _
  rcases hs : (files.filter fun q => isTempCandidate q.1).insertionSort mtimeGe
    with _ | ⟨q, tail⟩
  · rw [hs] at hp
    simp at hp
  · rw [hs] at hp
    simp only [List.head?_cons, Option.some_inj] at hp
    subst hp
    rw [hs] at hsorted hperm
    have hqmem : q ∈ files.filter fun r => isTempCandidate r.1 :=
      hperm.subset (List.mem_cons_self q tail)
    have hqfiles := List.mem_filter.mp hqmem
    subst hpf
    refine ⟨q.2, hqfiles.1, hqfiles.2, ?_⟩
    intro g hg hgc
    have hgmem : g ∈ q :: tail :=
      hperm.symm.subset (List.mem_filter.mpr ⟨hg, hgc⟩)
    rcases List.mem_cons.mp hgmem with hgq | hgt
    · subst hgq
      exact Nat.le_refl _
    · exact List.rel_of_sorted_cons hsorted g hgt

/-- Witness for C6: the expected file is gone but two matching temp files
are listed; the newer one (mtime 7) is selected over the older (mtime 5),
and the non-matching file is ignored despite its larger mtime. -/
theorem recoverLatestTemp_selects_latest_witness :
    recoverLatestTemp [("temp_a.mp4", 5), ("notes.txt", 99), ("temp_b.mp4", 7)] =
      some "temp_b.mp4" ∧
    ∃ m : ℕ,
      ("temp_b.mp4", m) ∈
        [("temp_a.mp4", 5), ("notes.txt", 99), ("temp_b.mp4", 7)] ∧
      isTempCandidate "temp_b.mp4" = true ∧
      ∀ g ∈ [("temp_a.mp4", 5), ("notes.txt", 99), ("temp_b.mp4", 7)],
        isTempCandidate g.1 = true → g.2 ≤ m :=
  ⟨by decide, recoverLatestTemp_selects_latest _ _ (by decide)⟩

/-- Projecting timestamps commutes with list append. -/
theorem segPairs_append (l1 l2 : List SegRecord) :
    segPairs (l1 ++ l2) = segPairs l1 ++ segPairs l2 := by
  simp [segPairs]

/-- The rename loop of `stop_recording` changes only the `file` field of
each ledger entry: the timestamp sequence of the returned list is that of
the ledger. -/
theorem segPairs_finalizeList (pfx : String) (sid : ℕ) (cat : String)
    (segs : List SegRecord) :
    ∀ (fs : List FName) (idx : ℕ),
      segPairs (finalizeList pfx sid cat fs idx segs).1 = segPairs segs := by
  induction segs with
  | nil => intro fs idx; simp [finalizeList, segPairs]
  | cons sg rest ih =>
    intro fs idx
    by_cases hmem : sg.file ∈ fs <;>
      simp [finalizeList, hmem, segPairs] <;>
      simpa [segPairs] using ih _ (idx + 1)

/-- Contiguity is invariant under the rename loop. -/
theorem contiguous_finalize (pfx : String) (sid : ℕ) (cat : String)
    (fs : List FName) (idx : ℕ) (segs : List SegRecord) :
    Contiguous (finalizeList pfx sid cat fs idx segs).1 ↔ Contiguous segs := by
  unfold Contiguous
  rw [segPairs_finalizeList]

/-- Appending a segment that starts exactly where the ledger currently
ends preserves contiguity, and the ledger then ends at the new segment's
end instant. -/
theorem contiguous_snoc (segs : List SegRecord) (segStart endT : ℕ)
    (f : FName) (h1 : Contiguous segs)
    (h2 : ∀ p ∈ (segPairs segs).getLast?, p.2 = segStart) :
    Contiguous (segs ++ [⟨f, segStart, endT⟩]) ∧
    ∀ p ∈ (segPairs (segs ++ [⟨f, segStart, endT⟩])).getLast?, p.2 = endT := by
  constructor
  · unfold Contiguous
    rw [segPairs_append, List.chain'_append]
    refine ⟨h1, by simp [segPairs], ?_⟩
    intro x hx y hy
    simp [segPairs] at hy
    rw [← hy]
    exact h2 x hx
  · intro p hp
    rw [segPairs_append] at hp
    simp [segPairs, List.getLast?_append] at hp
    rw [← hp]

/-- Loop invariant of `_record_with_segmentation` when no chunk is lost:
the ledger stays contiguous, it always ends exactly at the running
`seg_start`, and every entry's start is at most its end. -/
theorem runLoop_invariant (specs : List ChunkSpec) :
    ∀ st : LoopState, (∀ c ∈ specs, GoodChunk c) →
      Contiguous st.segs →
      (∀ p ∈ (segPairs st.segs).getLast?, p.2 = st.segStart) →
      (∀ sg ∈ st.segs, sg.startT ≤ sg.endT) →
      Contiguous (runLoop st specs).1.segs ∧
      (∀ p ∈ (segPairs (runLoop st specs).1.segs).getLast?,
        p.2 = (runLoop st specs).1.segStart) ∧
      (∀ sg ∈ (runLoop st specs).1.segs, sg.startT ≤ sg.endT) := by
  induction specs with
  | nil => intro st _ h1 h2 h3; exact ⟨h1, h2, h3⟩
  | cons c rest ih =>
    intro st hall h1 h2 h3
    obtain ⟨he, ha, hu⟩ := hall c (List.mem_cons_self c rest)
    have hrest : ∀ c' ∈ rest, GoodChunk c' :=
      fun c' hc' => hall c' (List.mem_cons_of_mem _ hc')
    have hsnoc := contiguous_snoc st.segs st.segStart (st.segStart + c.dur)
      (if c.mergeOk then
        FName.mergedTmp st.sid st.chunkNum st.segStart (st.segStart + c.dur) ""
       else FName.tempVdo c.stamp) h1 h2
    have hord : ∀ sg ∈ st.segs ++
        [⟨(if c.mergeOk then
            FName.mergedTmp st.sid st.chunkNum st.segStart (st.segStart + c.dur) ""
           else FName.tempVdo c.stamp), st.segStart, st.segStart + c.dur⟩],
        sg.startT ≤ sg.endT := by
      intro sg hsg
      rcases List.mem_append.mp hsg with hmem | hmem
      · exact h3 sg hmem
      · simp at hmem
        rw [hmem]
        exact Nat.le_add_right _ _
    have hstep : runLoop st (c :: rest) =
        runLoop { st with
          segs := st.segs ++
            [⟨(if c.mergeOk then
                FName.mergedTmp st.sid st.chunkNum st.segStart (st.segStart + c.dur) ""
               else FName.tempVdo c.stamp), st.segStart, st.segStart + c.dur⟩],
          segStart := st.segStart + c.dur, chunkNum := st.chunkNum + 1 } rest := by
      simp [runLoop, he, ha, hu]
    rw [hstep]
    exact ih _ hrest hsnoc.1 hsnoc.2 hord

/-- C2 counterexample: an audio+video session with three chunks whose
middle chunk is lost (no usable file after the readiness wait and the
directory scan, lines 390-391).  The loop still advances `seg_start`
across the lost chunk, so the two ledger entries it produces are
`[0,1]` and `[2,3]`: the end of the first returned segment (1) differs
from the start of the second (2) — the returned list has a gap. -/
theorem lost_chunk_breaks_contiguity :
    (runLoop ⟨[], 0, 1, 1⟩
        [⟨false, false, 1, true, true, 1⟩,
         ⟨false, false, 2, false, true, 1⟩,
         ⟨false, false, 3, true, true, 1⟩]).1.segs =
      [⟨.mergedTmp 1 1 0 1 "", 0, 1⟩, ⟨.mergedTmp 1 3 2 3 "", 2, 3⟩] ∧
    ¬ Contiguous
      [(⟨.mergedTmp 1 1 0 1 "", 0, 1⟩ : SegRecord), ⟨.mergedTmp 1 3 2 3 "", 2, 3⟩] := by
  constructor
  · decide
  · intro hcont
    simp [Contiguous, segPairs, List.chain'_cons] at hcont

/-- The size monitor only ever touches the ledger, the chunk start and the
current file; mode and worker flags are untouched. -/
theorem runMonitor_preserves (ticks : List (ℕ × ℕ)) :
    ∀ s : RecorderState,
      (runMonitor s ticks).with_audio = s.with_audio ∧
      (runMonitor s ticks).segmentation_thread = s.segmentation_thread := by
  induction ticks with
  | nil => intro s; exact ⟨rfl, rfl⟩
  | cons t rest ih =>
    intro s
    obtain ⟨dur, stamp⟩ := t
    cases hcv : s.current_video_file with
    | none => simp [runMonitor, hcv]
    | some f =>
      simp only [runMonitor, hcv]
      exact ih _

/-- Monitor invariant in video-only mode: each rollover appends a segment
starting exactly where the previous one ended, so the ledger stays
contiguous and ends at the running `current_segment_start`. -/
theorem runMonitor_invariant (ticks : List (ℕ × ℕ)) :
    ∀ s : RecorderState,
      Contiguous s.segments →
      (∀ p ∈ (segPairs s.segments).getLast?, p.2 = s.current_segment_start) →
      Contiguous (runMonitor s ticks).segments ∧
      (∀ p ∈ (segPairs (runMonitor s ticks).segments).getLast?,
        p.2 = (runMonitor s ticks).current_segment_start) := by
  induction ticks with
  | nil => intro s h1 h2; exact ⟨h1, h2⟩
  | cons t rest ih =>
    intro s h1 h2
    obtain ⟨dur, stamp⟩ := t
    cases hcv : s.current_video_file with
    | none =>
      simp only [runMonitor, hcv]
      exact ⟨h1, h2⟩
    | some f =>
      simp only [runMonitor, hcv]
      have hsnoc := contiguous_snoc s.segments s.current_segment_start
        (s.current_segment_start + dur) f h1 h2
      exact ih _ hsnoc.1 hsnoc.2

/-- C2 amended: the chunk-level rule always holds — the loop sets the next
chunk's start to the current chunk's end (last conjunct) — and the list
returned by `stop_recording` is contiguous provided every started chunk
produced a segment: in audio+video mode contiguity holds whenever no
chunk was lost (first conjunct; a lost chunk between two recorded ones
leaves a gap, see the counterexample), each loop segment is also
chronologically ordered (second conjunct); in video-only mode the
returned list is always contiguous, since only the final chunk can fail
to produce a segment (third conjunct). -/
theorem segments_contiguous_when_no_chunk_lost
    (sid t0 : ℕ) (specs : List ChunkSpec) (s : RecorderState)
    (fs fs2 : List FName) (now now2 : ℕ) (cat cat2 : String)
    (s0 : RecorderState) (n0 : ℕ) (ticks : List (ℕ × ℕ))
    (hall : ∀ c ∈ specs, GoodChunk c)
    (hs0 : s0.recording = false) :
    Contiguous (stop_recording
      { s with with_audio := true, segmentation_thread := true,
               segments := (runLoop ⟨[], t0, 1, sid⟩ specs).1.segs }
      fs now cat).1 ∧
    (∀ sg ∈ (runLoop ⟨[], t0, 1, sid⟩ specs).1.segs, sg.startT ≤ sg.endT) ∧
    Contiguous (stop_recording
      (runMonitor (start_recording s0 false n0 true).1 ticks)
      fs2 now2 cat2).1 ∧
    (∀ (st : LoopState) (c : ChunkSpec), c.encoderRaises = false →
      c.audioRaises = false →
      ((runLoop st [c]).1).segStart = st.segStart + c.dur) := by
  have hbase := runLoop_invariant specs ⟨[], t0, 1, sid⟩ hall
    (by simp [Contiguous, segPairs]) (by simp [segPairs]) (by simp)
  refine ⟨?_, hbase.2.2, ?_, ?_⟩
  · have hstop : (stop_recording
        { s with with_audio := true, segmentation_thread := true,
                 segments := (runLoop ⟨[], t0, 1, sid⟩ specs).1.segs }
        fs now cat).1 =
        (finalizeList "merged" s.session_counter cat fs 1
          (runLoop ⟨[], t0, 1, sid⟩ specs).1.segs).1 := by
      simp [stop_recording]
    rw [hstop, contiguous_finalize]
    exact hbase.1
  · have hs1w : (start_recording s0 false n0 true).1.with_audio = false := by
      simp [start_recording, hs0]
    have hs1segs : (start_recording s0 false n0 true).1.segments = [] := by
      simp [start_recording, hs0]
    obtain ⟨hcM, hlM⟩ := runMonitor_invariant ticks
      (start_recording s0 false n0 true).1
      (by rw [hs1segs]; simp [Contiguous, segPairs])
      (by rw [hs1segs]; simp [segPairs])
    have hwM : (runMonitor (start_recording s0 false n0 true).1 ticks).with_audio
        = false := by
      rw [(runMonitor_preserves ticks _).1, hs1w]
    cases hcv : (runMonitor (start_recording s0 false n0 true).1 ticks).current_video_file with
    | none =>
      have hstop : (stop_recording
          (runMonitor (start_recording s0 false n0 true).1 ticks)
          fs2 now2 cat2).1 =
          (finalizeList "vdo"
            (runMonitor (start_recording s0 false n0 true).1 ticks).session_counter
            cat2 fs2 1
            (runMonitor (start_recording s0 false n0 true).1 ticks).segments).1 := by
        simp [stop_recording, hwM, hcv]
      rw [hstop, contiguous_finalize]
      exact hcM
    | some f =>
      by_cases hmem : f ∈ fs2
      · have hstop : (stop_recording
            (runMonitor (start_recording s0 false n0 true).1 ticks)
            fs2 now2 cat2).1 =
            (finalizeList "vdo"
              (runMonitor (start_recording s0 false n0 true).1 ticks).session_counter
              cat2 fs2 1
              ((runMonitor (start_recording s0 false n0 true).1 ticks).segments ++
                [⟨f, (runMonitor (start_recording s0 false n0 true).1 ticks).current_segment_start,
                  now2⟩])).1 := by
          simp [stop_recording, hwM, hcv, hmem]
        rw [hstop, contiguous_finalize]
        exact (contiguous_snoc _ _ now2 f hcM hlM).1
      · have hstop : (stop_recording
            (runMonitor (start_recording s0 false n0 true).1 ticks)
            fs2 now2 cat2).1 =
            (finalizeList "vdo"
              (runMonitor (start_recording s0 false n0 true).1 ticks).session_counter
              cat2 fs2 1
              (runMonitor (start_recording s0 false n0 true).1 ticks).segments).1 := by
          simp [stop_recording, hwM, hcv, hmem]
        rw [hstop, contiguous_finalize]
        exact hcM
  · intro st c he ha
    by_cases hu : c.fileUsable = true <;> simp [runLoop, he, ha, hu]

/-- Witness for the amended C2 at one good chunk, one monitor tick. -/
theorem segments_contiguous_when_no_chunk_lost_witness :
    (∀ c ∈ [(⟨false, false, 1, true, true, 2⟩ : ChunkSpec)], GoodChunk c) ∧
    initState.recording = false ∧
    (Contiguous (stop_recording
      { initState with with_audio := true, segmentation_thread := true,
                       segments := (runLoop ⟨[], 0, 1, 1⟩
            [⟨false, false, 1, true, true, 2⟩]).1.segs }
      [] 9 "c").1 ∧
    (∀ sg ∈ (runLoop ⟨[], 0, 1, 1⟩
        [⟨false, false, 1, true, true, 2⟩]).1.segs, sg.startT ≤ sg.endT) ∧
    Contiguous (stop_recording
      (runMonitor (start_recording initState false 0 true).1 [(2, 4)])
      [] 9 "c").1 ∧
    (∀ (st : LoopState) (c : ChunkSpec), c.encoderRaises = false →
      c.audioRaises = false →
      ((runLoop st [c]).1).segStart = st.segStart + c.dur)) :=
  ⟨by intro c hc; simp at hc; subst hc; exact ⟨rfl, rfl, rfl⟩,
   rfl,
   segments_contiguous_when_no_chunk_lost 1 0 _ initState [] [] 9 9 "c" "c"
     initState 0 [(2, 4)]
     (by intro c hc; simp at hc; subst hc; exact ⟨rfl, rfl, rfl⟩) rfl⟩

/-- Renaming with `enumerate(.., start=idx)`: when every ledger file is a
distinct non-delivery name present on disk, each position `i` of the
returned list carries the delivery name with sequence index `idx + i` and
that entry's own timestamps. -/
theorem finalizeList_file_idx (pfx : String) (sid : ℕ) (cat : String)
    (segs : List SegRecord) :
    ∀ (fs : List FName) (idx : ℕ),
      (segs.map SegRecord.file).Nodup →
      (∀ sg ∈ segs, sg.file ∈ fs ∧ notDelivery sg.file = true) →
      ∀ i : ℕ,
        ((finalizeList pfx sid cat fs idx segs).1.map SegRecord.file)[i]? =
          (segs[i]?).map fun sg =>
            FName.delivery pfx sid (idx + i) sg.startT sg.endT cat := by
  induction segs with
  | nil => intro fs idx _ _ i; simp [finalizeList]
  | cons sg rest ih =>
    intro fs idx hnd hmem i
    have hsgfs : sg.file ∈ fs := (hmem sg (List.mem_cons_self sg rest)).1
    rw [List.map_cons, List.nodup_cons] at hnd
    obtain ⟨hnotmem, hnd'⟩ := hnd
    have hmem' : ∀ sg' ∈ rest,
        sg'.file ∈ (fs.erase sg.file ++
          [FName.delivery pfx sid idx sg.startT sg.endT cat]) ∧
        notDelivery sg'.file = true := by
      intro sg' hsg'
      have h1 := hmem sg' (List.mem_cons_of_mem _ hsg')
      refine ⟨List.mem_append_left _ ?_, h1.2⟩
      have hne : sg'.file ≠ sg.file := by
        intro heq
        exact hnotmem (heq ▸ List.mem_map_of_mem SegRecord.file hsg')
      exact (List.mem_erase_of_ne hne).mpr h1.1
    have hstep : (finalizeList pfx sid cat fs idx (sg :: rest)).1 =
        ⟨FName.delivery pfx sid idx sg.startT sg.endT cat, sg.startT, sg.endT⟩ ::
          (finalizeList pfx sid cat
            (fs.erase sg.file ++
              [FName.delivery pfx sid idx sg.startT sg.endT cat])
            (idx + 1) rest).1 := by
      simp [finalizeList, hsgfs]
    rw [hstep]
    cases i with
    | zero => simp
    | succ n =>
      rw [List.map_cons]
      simp only [List.getElem?_cons_succ]
      rw [ih _ (idx + 1) hnd' hmem' n]
      have harith : idx + 1 + n = idx + (n + 1) := by omega
      rw [harith]

/-- C10: every `stop_recording` call increments `session_counter` by
exactly one and resets `chunk_num` to 1 before returning (lines 621-622),
whatever the state — also when the returned list is empty; since each
session's delivery names embed the `session_counter` value current during
its stop, distinct sessions embed distinct (strictly increasing) ids.
Moreover, in an audio+video session whose ledger files are distinct
non-delivery names still on disk, position `i` of the returned list
carries the delivery name with 1-based sequence index `1 + i`: the
embedded indices are exactly 1, 2, 3, …. -/
theorem stop_increments_session_and_indices (s : RecorderState)
    (fs : List FName) (now : ℕ) (cat : String) :
    ((stop_recording s fs now cat).2.1.session_counter = s.session_counter + 1 ∧
     (stop_recording s fs now cat).2.1.chunk_num = 1) ∧
    (s.with_audio = true → s.segmentation_thread = true →
      (s.segments.map SegRecord.file).Nodup →
      (∀ sg ∈ s.segments, sg.file ∈ fs ∧ notDelivery sg.file = true) →
      ∀ i : ℕ,
        ((stop_recording s fs now cat).1.map SegRecord.file)[i]? =
          (s.segments[i]?).map fun sg =>
            FName.delivery "merged" s.session_counter (1 + i) sg.startT sg.endT
              cat) := by
  constructor
  · constructor <;> simp [stop_recording]
  · intro hw ht hnd hmem i
    have hstop : (stop_recording s fs now cat).1 =
        (finalizeList "merged" s.session_counter cat fs 1 s.segments).1 := by
      simp [stop_recording, hw, ht]
    rw [hstop]
    exact finalizeList_file_idx "merged" s.session_counter cat s.segments fs 1
      hnd hmem i

/-- Witness for C10 on a one-chunk audio+video session. -/
theorem stop_increments_session_and_indices_witness :
    oneChunkAVState.with_audio = true ∧
    oneChunkAVState.segmentation_thread = true ∧
    ((oneChunkAVState.segments.map SegRecord.file).Nodup ∧
     (∀ sg ∈ oneChunkAVState.segments,
       sg.file ∈ [FName.tempVdo 3] ∧ notDelivery sg.file = true)) ∧
    ((stop_recording oneChunkAVState [FName.tempVdo 3] 9 "cat").2.1.session_counter =
       oneChunkAVState.session_counter + 1 ∧
     (stop_recording oneChunkAVState [FName.tempVdo 3] 9 "cat").2.1.chunk_num = 1) ∧
    ∀ i : ℕ,
      ((stop_recording oneChunkAVState [FName.tempVdo 3] 9 "cat").1.map
        SegRecord.file)[i]? =
        (oneChunkAVState.segments[i]?).map fun sg =>
          FName.delivery "merged" oneChunkAVState.session_counter (1 + i)
            sg.startT sg.endT "cat" :=
  ⟨rfl, rfl, ⟨by decide, by decide⟩,
   (stop_increments_session_and_indices oneChunkAVState [FName.tempVdo 3] 9 "cat").1,
   fun i =>
     (stop_increments_session_and_indices oneChunkAVState [FName.tempVdo 3] 9
       "cat").2 rfl rfl (by decide) (by decide) i⟩
